import Mathlib

/-!
Verification of the IDX signal backend (backend/app.py) against its
natural-language specification.  The Python code is shallowly embedded:
bar series become lists of records over the rationals, pandas rolling
computations become windowed list functions returning Option values
(none models NaN), the process-wide cache becomes explicit state
passing, and the regime classifier's exception handling becomes an
Except-valued input.  Python truthiness tests on floats and on None are
modelled explicitly where the code relies on them.
-/

namespace IdxSignal

/-! ## TTL cache (app.py lines 14-35)

The cache is a mutable dict from string keys to records holding a
stored-at unix timestamp and a value.  We model the dict as a function
from keys to optional entries and pass the current clock explicitly. -/

/-- CACHE_TTL_SECONDS from app.py line 14: 60 * 10 seconds. -/
def CACHE_TTL_SECONDS : ℤ := 60 * 10

/-- The in-memory cache state: key to (stored-at timestamp, value). -/
def Cache (α : Type) : Type := String → Option (ℤ × α)

/-- cache_set (app.py lines 34-35): unconditionally overwrite the entry. -/
def cache_set {α : Type} (now : ℤ) (c : Cache α) (key : String) (v : α) : Cache α :=
  fun k => if k = key then some (now, v) else c k

/-- cache_get (app.py lines 24-31): absent if missing; if the entry's age
exceeds the TTL, pop it and report absent; otherwise return the value.
Returns the result together with the possibly-updated cache state. -/
def cache_get {α : Type} (now : ℤ) (c : Cache α) (key : String) :
    Option α × Cache α :=
  match c key with
  | none => (none, c)
  | some (ts, v) =>
      if now - ts > CACHE_TTL_SECONDS then
        (none, fun k => if k = key then none else c k)
      else (some v, c)

/-! ## Ticker normalization (app.py lines 38-44)

Python strings are modelled as lists of code points; str.strip removes
leading and trailing whitespace and str.upper maps lowercase ASCII
letters to uppercase. -/

/-- Whitespace code points removed by str.strip (ASCII range). -/
def pyIsSpace (n : ℕ) : Bool :=
  n = 32 ∨ n = 9 ∨ n = 10 ∨ n = 13 ∨ n = 11 ∨ n = 12

/-- str.upper on one code point: lowercase ASCII letters shift down by 32. -/
def pyUpperChar (n : ℕ) : ℕ := if 97 ≤ n ∧ n ≤ 122 then n - 32 else n

/-- str.upper on a whole string. -/
def pyUpper (s : List ℕ) : List ℕ := s.map pyUpperChar

/-- str.strip: drop whitespace from both ends. -/
def pyStrip (s : List ℕ) : List ℕ :=
  ((s.dropWhile pyIsSpace).reverse.dropWhile pyIsSpace).reverse

/-- The code points of ".JK". -/
def dotJK : List ℕ := [46, 74, 75]

/-- _to_jk_ticker (app.py lines 38-44): trim and uppercase; keep strings
starting with the index marker 94 (caret) or ending in ".JK"; otherwise
append ".JK". -/
def to_jk_ticker (s : List ℕ) : List ℕ :=
  let t := pyUpper (pyStrip s)
  if t.head? = some 94 then t
  else if dotJK.isSuffixOf t then t
  else t ++ dotJK

/-! ### Helper lemmas for normalization -/

lemma pyUpperChar_idem (n : ℕ) : pyUpperChar (pyUpperChar n) = pyUpperChar n := by
  unfold pyUpperChar
  split
  · rename_i h
    rw [if_neg (by omega)]
  · rfl

lemma pyUpperChar_space (n : ℕ) : pyIsSpace (pyUpperChar n) = pyIsSpace n := by
  unfold pyUpperChar pyIsSpace
  split
  · rename_i h
    have h1 : ¬ (n - 32 = 32 ∨ n - 32 = 9 ∨ n - 32 = 10 ∨ n - 32 = 13 ∨
        n - 32 = 11 ∨ n - 32 = 12) := by omega
    have h2 : ¬ (n = 32 ∨ n = 9 ∨ n = 10 ∨ n = 13 ∨ n = 11 ∨ n = 12) := by omega
    simp [h1, h2]
  · rfl

lemma pyUpper_idem (s : List ℕ) : pyUpper (pyUpper s) = pyUpper s := by
  unfold pyUpper
  rw [List.map_map]
  exact List.map_congr_left (fun n _ => pyUpperChar_idem n)

/-- A list is trimmed if neither end carries whitespace. -/
def Trimmed (s : List ℕ) : Prop :=
  (∀ c ∈ s.head?, pyIsSpace c = false) ∧ (∀ c ∈ s.getLast?, pyIsSpace c = false)

lemma dropWhile_head_not (p : ℕ → Bool) (l : List ℕ) :
    ∀ c ∈ (l.dropWhile p).head?, p c = false := by
  induction l with
  | nil => intro c hc; simp [List.dropWhile] at hc
  | cons x xs ih =>
      intro c hc
      rw [List.dropWhile_cons] at hc
      by_cases hx : p x
      · rw [if_pos hx] at hc
        exact ih c hc
      · rw [if_neg hx] at hc
        simp at hc
        subst hc
        simpa using hx

lemma dropWhile_eq_self_of_head (p : ℕ → Bool) (l : List ℕ)
    (h : ∀ c ∈ l.head?, p c = false) : l.dropWhile p = l := by
  cases l with
  | nil => rfl
  | cons x xs =>
      rw [List.dropWhile_cons]
      have : p x = false := h x (by simp)
      simp [this]

lemma getLast?_eq_head?_reverse (l : List ℕ) : l.getLast? = l.reverse.head? := by
  rw [List.head?_reverse]

/-- dropWhile only removes a prefix, so a nonempty result keeps the last
element of the input. -/
lemma dropWhile_getLast? (p : ℕ → Bool) (l : List ℕ) (h : l.dropWhile p ≠ []) :
    (l.dropWhile p).getLast? = l.getLast? := by
  induction l with
  | nil => simp [List.dropWhile] at h
  | cons x xs ih =>
      rw [List.dropWhile_cons]
      by_cases hx : p x
      · rw [List.dropWhile_cons, if_pos hx] at h
        rw [if_pos hx, ih h]
        have hxs : xs ≠ [] := by
          intro hn
          subst hn
          simp [List.dropWhile] at h
        cases xs with
        | nil => exact absurd rfl hxs
        | cons y ys => rw [List.getLast?_cons_cons]
      · rw [if_neg hx]

lemma pyStrip_trimmed (s : List ℕ) : Trimmed (pyStrip s) := by
  unfold pyStrip
  set a := s.dropWhile pyIsSpace with ha
  set m := a.reverse.dropWhile pyIsSpace with hm
  constructor
  · intro c hc
    rw [List.head?_reverse] at hc
    rcases hme : m with _ | ⟨x, xs⟩
    · simp [hme] at hc
    · have hmn : m ≠ [] := by rw [hme]; simp
      have := dropWhile_getLast? pyIsSpace a.reverse (by rw [← hm]; exact hmn)
      rw [← hm] at this
      rw [this] at hc
      rw [← List.head?_reverse] at hc
      rw [List.reverse_reverse] at hc
      exact dropWhile_head_not pyIsSpace s c hc
  · intro c hc
    rw [List.getLast?_reverse] at hc
    exact dropWhile_head_not pyIsSpace a.reverse c hc

lemma pyStrip_eq_self (s : List ℕ) (h : Trimmed s) : pyStrip s = s := by
  unfold pyStrip
  rw [dropWhile_eq_self_of_head _ _ h.1]
  rw [dropWhile_eq_self_of_head _ _ (by
    intro c hc
    rw [← List.getLast?_reverse] at hc
    rw [List.reverse_reverse] at hc
    exact h.2 c hc)]
  exact List.reverse_reverse s

lemma pyUpper_trimmed (s : List ℕ) (h : Trimmed s) : Trimmed (pyUpper s) := by
  constructor
  · intro c hc
    unfold pyUpper at hc
    rw [List.head?_map] at hc
    rcases hh : s.head? with _ | x
    · simp [hh] at hc
    · rw [hh] at hc
      simp at hc
      subst hc
      rw [pyUpperChar_space]
      exact h.1 x (by simp [hh])
  · intro c hc
    unfold pyUpper at hc
    rw [List.getLast?_map] at hc
    rcases hh : s.getLast? with _ | x
    · simp [hh] at hc
    · rw [hh] at hc
      simp at hc
      subst hc
      rw [pyUpperChar_space]
      exact h.2 x (by simp [hh])

lemma pyUpper_dotJK : pyUpper dotJK = dotJK := by decide

lemma trimmed_append_dotJK (t : List ℕ) (h : Trimmed t) : Trimmed (t ++ dotJK) := by
  constructor
  · intro c hc
    cases t with
    | nil => simp [dotJK] at hc; subst hc; decide
    | cons x xs =>
        simp at hc
        subst hc
        exact h.1 x (by simp)
  · intro c hc
    rw [List.getLast?_append_of_ne_nil t (by simp [dotJK])] at hc
    simp [dotJK] at hc
    subst hc
    decide

/-- Fixed point: the output of the normalizer is unchanged by a further
strip-and-uppercase pass. -/
lemma to_jk_ticker_strip_upper (s : List ℕ) :
    pyUpper (pyStrip (to_jk_ticker s)) = to_jk_ticker s := by
  have htrim : Trimmed (pyUpper (pyStrip s)) :=
    pyUpper_trimmed _ (pyStrip_trimmed s)
  have hup : pyUpper (pyUpper (pyStrip s)) = pyUpper (pyStrip s) := pyUpper_idem _
  simp only [to_jk_ticker]
  split
  · rw [pyStrip_eq_self _ htrim, hup]
  · split
    · rw [pyStrip_eq_self _ htrim, hup]
    · rw [pyStrip_eq_self _ (trimmed_append_dotJK _ htrim)]
      rw [pyUpper, List.map_append, ← pyUpper, ← pyUpper, hup, pyUpper_dotJK]

/-- C8: ticker normalization is idempotent: trimming and uppercasing, then
keeping strings that start with a caret or already end in ".JK" and
appending ".JK" otherwise, reaches a fixed point after one application. -/
theorem C8_to_jk_ticker_idem (s : List ℕ) :
    to_jk_ticker (to_jk_ticker s) = to_jk_ticker s := by
  conv_lhs => rw [to_jk_ticker]
  rw [to_jk_ticker_strip_upper s]
  by_cases h1 : (to_jk_ticker s).head? = some 94
  · rw [if_pos h1]
  · rw [if_neg h1]
    have hsuf : dotJK.isSuffixOf (to_jk_ticker s) = true := by
      rw [List.isSuffixOf_iff_suffix]
      rw [to_jk_ticker]
      split
      · rename_i h2
        exact absurd (by rw [to_jk_ticker, if_pos h2]; exact h2) h1
      · split
        · rename_i h2
          exact List.isSuffixOf_iff_suffix.mp h2
        · exact List.suffix_append _ dotJK
    rw [if_pos hsuf]

/-! ## Cache behaviour theorems -/

/-- C7: with TTL fixed at 600 seconds: a set followed by a get within the
TTL returns the stored value; a get that finds an entry strictly older
than the TTL returns absent and removes exactly that entry; set
unconditionally overwrites; and any entry surviving a get keeps its
stored-at timestamp and value unchanged. -/
theorem C7_cache_ttl {α : Type} (c : Cache α) (k : String) (v : α) (now now2 : ℤ) :
    CACHE_TTL_SECONDS = 600
    ∧ (now2 - now ≤ 600 → (cache_get now2 (cache_set now c k v) k).1 = some v)
    ∧ cache_set now c k v k = some (now, v)
    ∧ (∀ ts w, c k = some (ts, w) → now - ts > 600 →
        cache_get now c k = (none, fun k2 => if k2 = k then none else c k2))
    ∧ (∀ k2 ts w, (cache_get now c k).2 k2 = some (ts, w) → c k2 = some (ts, w)) := by
  have httl : CACHE_TTL_SECONDS = 600 := rfl
  refine ⟨rfl, ?_, ?_, ?_, ?_⟩
  · intro hage
    have hset : cache_set now c k v k = some (now, v) := by
      unfold cache_set
      rw [if_pos rfl]
    simp only [cache_get, hset]
    rw [if_neg (show ¬ now2 - now > CACHE_TTL_SECONDS by rw [httl]; omega)]
  · unfold cache_set
    rw [if_pos rfl]
  · intro ts w hentry hold
    simp only [cache_get, hentry]
    rw [if_pos (show now - ts > CACHE_TTL_SECONDS by rw [httl]; omega)]
  · intro k2 ts w
    rcases hk : c k with _ | ⟨ts0, w0⟩
    · simp only [cache_get, hk]
      exact fun h => h
    · simp only [cache_get, hk]
      by_cases hexp : now - ts0 > CACHE_TTL_SECONDS
      · rw [if_pos hexp]
        intro h
        have h2 : (if k2 = k then none else c k2) = some (ts, w) := h
        by_cases hk2 : k2 = k
        · rw [if_pos hk2] at h2
          exact absurd h2 (by simp)
        · rw [if_neg hk2] at h2
          exact h2
      · rw [if_neg hexp]
        exact fun h => h

/-- C7 witness: concrete runs of the cache exercising every hypothesis of
the cache theorem: a fresh entry is returned within the TTL, an entry
aged 700 seconds is evicted, set overwrites, and a surviving entry keeps
its timestamp. -/
theorem C7_cache_ttl_witness :
    (cache_get 500 (cache_set 0 (fun _ => none) "k" (7 : ℕ)) "k").1 = some 7
    ∧ cache_set 0 (fun _ => none) "k" (7 : ℕ) "k" = some (0, 7)
    ∧ cache_get 700 (cache_set 0 (fun _ => none) "k" (7 : ℕ)) "k" =
        (none, fun k2 => if k2 = "k" then none
          else cache_set 0 (fun _ => none) "k" (7 : ℕ) k2)
    ∧ cache_set 0 (fun _ => none) "k" (7 : ℕ) "k" = some (0, 7) :=
  ⟨(C7_cache_ttl (fun _ => none) "k" 7 0 500).2.1 (by omega),
   (C7_cache_ttl (fun _ => none) "k" 7 0 500).2.2.1,
   (C7_cache_ttl (cache_set 0 (fun _ => none) "k" (7 : ℕ)) "k" 7 700 0).2.2.2.1 0 7
     (by decide) (by omega),
   (C7_cache_ttl (cache_set 0 (fun _ => none) "k" (7 : ℕ)) "k" 7 100 0).2.2.2.2 "k" 0 7
     (by decide)⟩

/-! ## Bar series data model (spec section 3, app.py fetch output)

One daily bar; prices and volume are rationals, the date an integer
day stamp.  NaN never occurs in open/high/low/close (fetch_ohlcv drops
such rows); indicator warm-up NaNs are modelled by Option. -/

structure Bar where
  date : ℤ
  opn : ℚ
  high : ℚ
  low : ℚ
  close : ℚ
  volume : ℚ
deriving DecidableEq, Repr, Inhabited

/-- The latest bar, d.iloc[-1] (callers guarantee a non-empty frame). -/
def lastBar (bars : List Bar) : Bar := bars.getLastD default

/-! ## Indicator engine (app.py lines 123-147) -/

/-- Rolling mean of window n over a column that may contain NaN (none):
position i is defined only when the window is full (n from the start)
and every value in it is defined, matching pandas rolling(n).mean(). -/
def rollingMeanO (n : ℕ) (ys : List (Option ℚ)) : List (Option ℚ) :=
  (List.range ys.length).map fun i =>
    let w := (ys.drop (i + 1 - n)).take n
    if n ≤ i + 1 ∧ w.all Option.isSome then
      some ((w.map (fun o => o.getD 0)).sum / (n : ℚ))
    else none

/-- sma (app.py lines 123-124): series.rolling(n).mean() over a NaN-free
column. -/
def sma (xs : List ℚ) (n : ℕ) : List (Option ℚ) :=
  rollingMeanO n (xs.map some)

/-- series.diff(): position 0 is NaN, position i is xs[i] - xs[i-1]. -/
def diff (xs : List ℚ) : List (Option ℚ) :=
  (List.range xs.length).map fun i =>
    if i = 0 then none else some (xs.getD i 0 - xs.getD (i - 1) 0)

/-- Gains column of rsi: delta.clip(lower=0).rolling(n).mean(). -/
def rsiUps (n : ℕ) (xs : List ℚ) : List (Option ℚ) :=
  rollingMeanO n ((diff xs).map (Option.map fun d => max 0 d))

/-- Losses column of rsi: (-delta.clip(upper=0)).rolling(n).mean(). -/
def rsiDowns (n : ℕ) (xs : List ℚ) : List (Option ℚ) :=
  rollingMeanO n ((diff xs).map (Option.map fun d => max 0 (-d)))

/-- rsi (app.py lines 127-132): rs = up / down.replace(0, nan);
result = 100 - 100 / (1 + rs); NaN wherever up or down is NaN or down
is zero. -/
def rsi (xs : List ℚ) (n : ℕ) : List (Option ℚ) :=
  (List.range xs.length).map fun i =>
    match (rsiUps n xs).getD i none, (rsiDowns n xs).getD i none with
    | some u, some dn =>
        if dn = 0 then none else some (100 - 100 / (1 + u / dn))
    | _, _ => none

/-- True range per bar (app.py lines 139-146): the row-wise max of
high-low, abs(high-prev_close), abs(low-prev_close); on the first bar
the two prev_close columns are NaN and the skipna max leaves high-low. -/
def trueRange (bars : List Bar) : List ℚ :=
  (List.range bars.length).map fun i =>
    let b := bars.getD i default
    if i = 0 then b.high - b.low
    else
      let pc := (bars.getD (i - 1) default).close
      max (b.high - b.low) (max |b.high - pc| |b.low - pc|)

/-- atr (app.py lines 135-147): rolling mean of the true range. -/
def atr (bars : List Bar) (n : ℕ) : List (Option ℚ) :=
  rollingMeanO n ((trueRange bars).map some)

/-! ## Pivots (app.py lines 150-163) -/

/-- Maximum of a rational list, 0 on the empty list (df max of an empty
column never occurs on the paths proved below). -/
def listMax : List ℚ → ℚ
  | [] => 0
  | [x] => x
  | x :: y :: xs => max x (listMax (y :: xs))

/-- Minimum of a rational list, 0 on the empty list. -/
def listMin : List ℚ → ℚ
  | [] => 0
  | [x] => x
  | x :: y :: xs => min x (listMin (y :: xs))

/-- pivot_high (app.py lines 150-155): with fewer than lookback+2 bars the
max high of the whole series, otherwise the max high of the window
df.iloc[-(lookback+1):-1]. -/
def pivot_high (bars : List Bar) (lookback : ℕ) : ℚ :=
  if bars.length < lookback + 2 then listMax (bars.map Bar.high)
  else
    listMax ((((bars.drop (bars.length - (lookback + 1))).take lookback).map Bar.high))

/-- pivot_low (app.py lines 158-163): the symmetric minimum computation. -/
def pivot_low (bars : List Bar) (lookback : ℕ) : ℚ :=
  if bars.length < lookback + 2 then listMin (bars.map Bar.low)
  else
    listMin ((((bars.drop (bars.length - (lookback + 1))).take lookback).map Bar.low))

/-! ### Basic facts about the windowed functions -/

lemma rollingMeanO_length (n : ℕ) (ys : List (Option ℚ)) :
    (rollingMeanO n ys).length = ys.length := by
  unfold rollingMeanO
  rw [List.length_map, List.length_range]

lemma diff_length (xs : List ℚ) : (diff xs).length = xs.length := by
  unfold diff
  rw [List.length_map, List.length_range]

lemma trueRange_length (bars : List Bar) : (trueRange bars).length = bars.length := by
  unfold trueRange
  rw [List.length_map, List.length_range]

lemma sma_length (xs : List ℚ) (n : ℕ) : (sma xs n).length = xs.length := by
  unfold sma
  rw [rollingMeanO_length, List.length_map]

lemma rollingMeanO_getD (n : ℕ) (ys : List (Option ℚ)) (i : ℕ) (h : i < ys.length) :
    (rollingMeanO n ys).getD i none =
      (if n ≤ i + 1 ∧ ((ys.drop (i + 1 - n)).take n).all Option.isSome then
        some (((((ys.drop (i + 1 - n)).take n)).map (fun o => o.getD 0)).sum / (n : ℚ))
      else none) := by
  unfold rollingMeanO
  rw [List.getD_eq_getElem?_getD, List.getElem?_map, List.getElem?_range h]
  rfl

lemma diff_getD (xs : List ℚ) (i : ℕ) (h : i < xs.length) :
    (diff xs).getD i none =
      (if i = 0 then none else some (xs.getD i 0 - xs.getD (i - 1) 0)) := by
  unfold diff
  rw [List.getD_eq_getElem?_getD, List.getElem?_map, List.getElem?_range h]
  rfl

lemma rsi_getD (xs : List ℚ) (n : ℕ) (i : ℕ) (h : i < xs.length) :
    (rsi xs n).getD i none =
      (match (rsiUps n xs).getD i none, (rsiDowns n xs).getD i none with
      | some u, some dn =>
          if dn = 0 then none else some (100 - 100 / (1 + u / dn))
      | _, _ => none) := by
  unfold rsi
  rw [List.getD_eq_getElem?_getD, List.getElem?_map, List.getElem?_range h]
  rfl

lemma listMax_mem_le (l : List ℚ) (a : ℚ) (ha : a ∈ l) : a ≤ listMax l := by
  induction l with
  | nil => cases ha
  | cons x xs ih =>
      cases xs with
      | nil =>
          rcases List.mem_singleton.mp ha with rfl
          exact le_of_eq rfl
      | cons y ys =>
          rw [listMax]
          rcases List.mem_cons.mp ha with rfl | hmem
          · exact le_max_left _ _
          · exact le_trans (ih hmem) (le_max_right _ _)

lemma listMax_mem (l : List ℚ) (h : l ≠ []) : listMax l ∈ l := by
  induction l with
  | nil => exact absurd rfl h
  | cons x xs ih =>
      cases xs with
      | nil => simp [listMax]
      | cons y ys =>
          rw [listMax]
          rcases max_choice x (listMax (y :: ys)) with hc | hc
          · rw [hc]; exact List.mem_cons_self _ _
          · rw [hc]
            exact List.mem_cons_of_mem _ (ih (by simp))

lemma listMin_mem_le (l : List ℚ) (a : ℚ) (ha : a ∈ l) : listMin l ≤ a := by
  induction l with
  | nil => cases ha
  | cons x xs ih =>
      cases xs with
      | nil =>
          rcases List.mem_singleton.mp ha with rfl
          exact le_of_eq rfl
      | cons y ys =>
          rw [listMin]
          rcases List.mem_cons.mp ha with rfl | hmem
          · exact min_le_left _ _
          · exact le_trans (min_le_right _ _) (ih hmem)

lemma listMin_mem (l : List ℚ) (h : l ≠ []) : listMin l ∈ l := by
  induction l with
  | nil => exact absurd rfl h
  | cons x xs ih =>
      cases xs with
      | nil => simp [listMin]
      | cons y ys =>
          rw [listMin]
          rcases min_choice x (listMin (y :: ys)) with hc | hc
          · rw [hc]; exact List.mem_cons_self _ _
          · rw [hc]
            exact List.mem_cons_of_mem _ (ih (by simp))

/-! ## Signal classifier (app.py lines 166-258)

Each local variable of compute_signal becomes a definition; the NaN
fallbacks of lines 186-189 become Option.getD with the documented
substitute. -/

/-- Latest close (line 182). -/
def sigClose (bars : List Bar) : ℚ := (lastBar bars).close

/-- Latest open (line 183). -/
def sigOpen (bars : List Bar) : ℚ := (lastBar bars).opn

/-- Latest volume with NaN mapped to 0 (line 184); volume NaN cannot
occur in the modelled series, so this is the plain latest volume. -/
def sigVol (bars : List Bar) : ℚ := (lastBar bars).volume

/-- ma20 at the latest bar, close when undefined (line 186). -/
def sigMa20 (bars : List Bar) : ℚ :=
  ((sma (bars.map Bar.close) 20).getLastD none).getD (sigClose bars)

/-- ma50 at the latest bar, close when undefined (line 187). -/
def sigMa50 (bars : List Bar) : ℚ :=
  ((sma (bars.map Bar.close) 50).getLastD none).getD (sigClose bars)

/-- volma20 at the latest bar, latest volume when undefined (line 188). -/
def sigVolma20 (bars : List Bar) : ℚ :=
  ((sma (bars.map Bar.volume) 20).getLastD none).getD (sigVol bars)

/-- atr14 at the latest bar, 0 when undefined (line 189). -/
def sigAtr14 (bars : List Bar) : ℚ := ((atr bars 14).getLastD none).getD 0

/-- resistance (line 191). -/
def sigResistance (bars : List Bar) : ℚ := pivot_high bars 20

/-- support (line 192). -/
def sigSupport (bars : List Bar) : ℚ := pivot_low bars 20

/-- trend_ok (line 194). -/
def sigTrendOk (bars : List Bar) : Bool :=
  decide (sigClose bars > sigMa50 bars) && decide (sigMa20 bars > sigMa50 bars)

/-- breakout (line 196). -/
def sigBreakout (bars : List Bar) : Bool :=
  sigTrendOk bars && decide (sigClose bars > sigResistance bars)
    && decide (sigVol bars > sigVolma20 bars)

/-- dist_ma20 (line 198). -/
def sigDistMa20 (bars : List Bar) : ℚ :=
  if sigMa20 bars ≠ 0 then |sigClose bars - sigMa20 bars| / sigMa20 bars else 0

/-- pullback (line 199). -/
def sigPullback (bars : List Bar) : Bool :=
  sigTrendOk bars && decide (sigDistMa20 bars ≤ 2 / 100)
    && decide (sigClose bars ≥ sigOpen bars)

/-- Breakout stop-loss (line 211). -/
def breakoutSl (bars : List Bar) : ℚ :=
  if sigAtr14 bars > 0 then min (sigSupport bars) (sigClose bars - 2 * sigAtr14 bars)
  else sigSupport bars

/-- Pullback stop-loss (line 222). -/
def pullbackSl (bars : List Bar) : ℚ :=
  min (sigSupport bars) (sigMa20 bars * (98 / 100))

/-- setup tag of the branch taken (lines 205-231). -/
def sigSetup (bars : List Bar) : String :=
  if sigBreakout bars then "BREAKOUT"
  else if sigPullback bars then "PULLBACK_MA20"
  else "NONE"

/-- entry (lines 201, 210, 221). -/
def sigEntry (bars : List Bar) : Option ℚ :=
  if sigBreakout bars then some (sigClose bars)
  else if sigPullback bars then some (sigClose bars)
  else none

/-- sl (lines 202, 211, 222). -/
def sigSl (bars : List Bar) : Option ℚ :=
  if sigBreakout bars then some (breakoutSl bars)
  else if sigPullback bars then some (pullbackSl bars)
  else none

/-- tp1 (lines 203, 212, 223). -/
def sigTp1 (bars : List Bar) : Option ℚ :=
  if sigBreakout bars then some (sigClose bars + (sigClose bars - breakoutSl bars) * 1)
  else if sigPullback bars then some (sigResistance bars)
  else none

/-- tp2 (lines 204, 213, 224). -/
def sigTp2 (bars : List Bar) : Option ℚ :=
  if sigBreakout bars then some (sigClose bars + (sigClose bars - breakoutSl bars) * 2)
  else if sigPullback bars then
    some (sigResistance bars + (sigResistance bars - pullbackSl bars))
  else none

/-- reason list (lines 214-231); the numeric interpolation of the
resistance level in the breakout message is elided. -/
def sigReason (bars : List Bar) : List String :=
  if sigBreakout bars then
    ["Trend OK (Close>MA50 & MA20>MA50)", "Close tembus resistance",
     "Volume > rata-rata 20 hari"]
  else if sigPullback bars then
    ["Trend OK (Close>MA50 & MA20>MA50)", "Harga dekat MA20 (pullback sehat)",
     "Candle bullish (close >= open)"]
  else ["Belum ada setup rapi (breakout / pullback)"]

/-- Python truthiness of an optional float: None and 0.0 are falsy. -/
def truthy (o : Option ℚ) : Bool :=
  match o with
  | none => false
  | some x => decide (x ≠ 0)

/-- The risk-reward record of lines 235-239. -/
structure RRBlock where
  risk_per_share : ℚ
  r_multiple_tp1 : Option ℚ
  r_multiple_tp2 : Option ℚ
deriving DecidableEq, Repr

/-- rr (lines 233-239): guarded by Python truthiness of entry and sl and
by entry > sl; each r-multiple is likewise guarded by truthiness of its
take-profit. -/
def mkRR (entry sl tp1 tp2 : Option ℚ) : Option RRBlock :=
  if truthy entry && truthy sl && decide (entry.getD 0 > sl.getD 0) then
    some
      { risk_per_share := entry.getD 0 - sl.getD 0
        r_multiple_tp1 :=
          if truthy tp1 then
            some ((tp1.getD 0 - entry.getD 0) / (entry.getD 0 - sl.getD 0))
          else none
        r_multiple_tp2 :=
          if truthy tp2 then
            some ((tp2.getD 0 - entry.getD 0) / (entry.getD 0 - sl.getD 0))
          else none }
  else none

/-- The Setup record returned by compute_signal (lines 241-258). -/
structure SignalResult where
  setup : String
  trend_ok : Bool
  close : ℚ
  ma20 : ℚ
  ma50 : ℚ
  resistance : ℚ
  support : ℚ
  volume : ℚ
  volma20 : ℚ
  entry : Option ℚ
  sl : Option ℚ
  tp1 : Option ℚ
  tp2 : Option ℚ
  rr : Option RRBlock
  reason : List String
  asof : ℤ
deriving DecidableEq, Repr

/-- compute_signal (app.py lines 166-258). -/
def compute_signal (bars : List Bar) : SignalResult :=
  { setup := sigSetup bars
    trend_ok := sigTrendOk bars
    close := sigClose bars
    ma20 := sigMa20 bars
    ma50 := sigMa50 bars
    resistance := sigResistance bars
    support := sigSupport bars
    volume := sigVol bars
    volma20 := sigVolma20 bars
    entry := sigEntry bars
    sl := sigSl bars
    tp1 := sigTp1 bars
    tp2 := sigTp2 bars
    rr := mkRR (sigEntry bars) (sigSl bars) (sigTp1 bars) (sigTp2 bars)
    reason := sigReason bars
    asof := (lastBar bars).date }

/-! ## Regime classifier (app.py lines 261-325) -/

/-- Python round to 2 decimal places, modelled as exact half-to-even
rounding on rationals. -/
def roundHalfEven (q : ℚ) : ℤ :=
  if q - ⌊q⌋ < 1 / 2 then ⌊q⌋
  else if 1 / 2 < q - ⌊q⌋ then ⌊q⌋ + 1
  else if 2 ∣ ⌊q⌋ then ⌊q⌋ else ⌊q⌋ + 1

/-- round(x, 2). -/
def pyRound2 (q : ℚ) : ℚ := (roundHalfEven (q * 100) : ℚ) / 100

/-- Latest benchmark close (line 278). -/
def regClose (bars : List Bar) : ℚ := (lastBar bars).close

/-- prev = d.iloc[-2] if len(d) >= 2 else last (line 276). -/
def regPrev (bars : List Bar) : Bar :=
  if 2 ≤ bars.length then bars.getD (bars.length - 2) default else lastBar bars

/-- Benchmark ma20 with close fallback (line 279). -/
def regMa20 (bars : List Bar) : ℚ :=
  ((sma (bars.map Bar.close) 20).getLastD none).getD (regClose bars)

/-- Benchmark ma50 with close fallback (line 280). -/
def regMa50 (bars : List Bar) : ℚ :=
  ((sma (bars.map Bar.close) 50).getLastD none).getD (regClose bars)

/-- Benchmark atr14 with 0 fallback (line 281). -/
def regAtr14 (bars : List Bar) : ℚ := ((atr bars 14).getLastD none).getD 0

/-- trend_on (line 283). -/
def regTrendOn (bars : List Bar) : Bool :=
  decide (regClose bars > regMa50 bars) && decide (regMa20 bars > regMa50 bars)

/-- trend_off (line 284). -/
def regTrendOff (bars : List Bar) : Bool := decide (regClose bars < regMa50 bars)

/-- day_change (line 286), 0 when the previous close is 0. -/
def regDayChange (bars : List Bar) : ℚ :=
  if (regPrev bars).close ≠ 0 then
    (regClose bars - (regPrev bars).close) / (regPrev bars).close
  else 0

/-- atr_pct (line 287), 0 when the close is 0. -/
def regAtrPct (bars : List Bar) : ℚ :=
  if regClose bars ≠ 0 then regAtr14 bars / regClose bars else 0

/-- The status before the override (lines 289-297). -/
def regStatusPre (bars : List Bar) : String :=
  if regTrendOn bars then "RISK_ON"
  else if regTrendOff bars then "RISK_OFF"
  else "NEUTRAL"

/-- The no-trade override condition (line 299). -/
def regNoTrade (bars : List Bar) : Bool :=
  regTrendOff bars
    && decide (regAtrPct bars ≥ 2 / 100 ∨ regDayChange bars ≤ -(2 / 100))

/-- Final status after the override (lines 299-301). -/
def regStatus (bars : List Bar) : String :=
  if regNoTrade bars then "NO_TRADE_DAY" else regStatusPre bars

/-- The note list (lines 290-301). -/
def regNote (bars : List Bar) : List String :=
  if regNoTrade bars then
    ["IHSG risk-off + volatilitas/penurunan tajam → prefer no trade"]
  else if regTrendOn bars then ["IHSG uptrend (Close>MA50 & MA20>MA50)"]
  else if regTrendOff bars then ["IHSG di bawah MA50 (risk-off)"]
  else []

/-- The Regime Status record (lines 303-325). -/
structure RegimeResult where
  status : String
  close : Option ℚ
  ma20 : Option ℚ
  ma50 : Option ℚ
  day_change_pct : Option ℚ
  atr14_pct : Option ℚ
  asof : Option ℤ
  note : List String
  ticker : String
deriving DecidableEq, Repr

/-- The successful branch of market_regime (lines 269-313). -/
def market_regime_ok (bars : List Bar) : RegimeResult :=
  { status := regStatus bars
    close := some (regClose bars)
    ma20 := some (regMa20 bars)
    ma50 := some (regMa50 bars)
    day_change_pct := some (pyRound2 (regDayChange bars * 100))
    atr14_pct := some (pyRound2 (regAtrPct bars * 100))
    asof := some (lastBar bars).date
    note := regNote bars
    ticker := "^JKSE" }

/-- The except branch of market_regime (lines 314-325). -/
def unknownRegime (cause : String) : RegimeResult :=
  { status := "UNKNOWN"
    close := none
    ma20 := none
    ma50 := none
    day_change_pct := none
    atr14_pct := none
    asof := none
    note := ["Data IHSG belum tersedia: " ++ cause]
    ticker := "^JKSE" }

/-- market_regime (lines 261-325): the benchmark fetch either fails with
a message (any raise inside fetch_ohlcv) or yields a series; an empty
series makes d.iloc[-1] raise, caught by the same handler.  Every
failure degrades to the UNKNOWN record instead of propagating. -/
def market_regime (fetched : Except String (List Bar)) : RegimeResult :=
  match fetched with
  | .error e => unknownRegime e
  | .ok bars =>
      if bars.isEmpty then
        unknownRegime "single positional indexer is out-of-bounds"
      else market_regime_ok bars

/-! ## Screener (app.py lines 415-461) -/

/-- One screener result row (lines 439-450). -/
structure Row where
  ticker : String
  score : ℕ
  setup : String
  close : ℚ
  resistance : ℚ
  support : ℚ
  asof : ℤ
  reason : List String
deriving DecidableEq, Repr

/-- The per-ticker score (lines 429-437).  The +1 volume bonus tests
Python truthiness of the volume and volma20 floats before comparing. -/
def screener_score (sig : SignalResult) : ℕ :=
  (if sig.trend_ok then 2 else 0)
    + (if sig.setup = "BREAKOUT" then 3 else 0)
    + (if sig.setup = "PULLBACK_MA20" then 2 else 0)
    + (if sig.volume ≠ 0 ∧ sig.volma20 ≠ 0 ∧ sig.volume > sig.volma20 then 1 else 0)

/-- Descending-by-score comparison used by results.sort(reverse=True). -/
def rowGe (a b : Row) : Prop := b.score ≤ a.score

instance : DecidableRel rowGe :=
  fun a b => inferInstanceAs (Decidable (b.score ≤ a.score))

instance : IsTotal Row rowGe := ⟨fun a b => le_total b.score a.score⟩

instance : IsTrans Row rowGe := ⟨fun _ _ _ hab hbc => le_trans hbc hab⟩

/-- results.sort(key=score, reverse=True) (line 454): a stable descending
sort, modelled by insertion sort which computes exactly the stable
ordering. -/
def sortResults (rows : List Row) : List Row := List.insertionSort rowGe rows

/-- The top list returned by the screener (line 460): results[:25]. -/
def screener_top (rows : List Row) : List Row := (sortResults rows).take 25

/-! ### Characterization of the moving average at the latest bar -/

lemma getLastD_eq_getD {α : Type} (l : List α) (d : α) :
    l.getLastD d = l.getD (l.length - 1) d := by
  rw [List.getLastD_eq_getLast?, List.getLast?_eq_getElem?, List.getD_eq_getElem?_getD]

lemma sma_last_undefined (xs : List ℚ) (n : ℕ) (h : xs.length < n) :
    (sma xs n).getLastD none = none := by
  rcases hxs : xs with _ | ⟨a, as⟩
  · rfl
  · rw [← hxs]
    have hlen : 1 ≤ xs.length := by rw [hxs]; simp
    rw [getLastD_eq_getD, sma_length]
    unfold sma
    rw [rollingMeanO_getD n _ (xs.length - 1)
      (by rw [List.length_map]; omega)]
    rw [if_neg]
    intro hcond
    have := hcond.1
    omega

lemma sma_last_defined (xs : List ℚ) (n : ℕ) (hn : 1 ≤ n) (hlen : n ≤ xs.length) :
    (sma xs n).getLastD none = some ((xs.drop (xs.length - n)).sum / (n : ℚ)) := by
  have hx1 : 1 ≤ xs.length := le_trans hn hlen
  rw [getLastD_eq_getD, sma_length]
  unfold sma
  rw [rollingMeanO_getD n _ (xs.length - 1) (by rw [List.length_map]; omega)]
  have hidx : xs.length - 1 + 1 - n = xs.length - n := by omega
  rw [hidx]
  have hw : ((xs.map some).drop (xs.length - n)).take n
      = ((xs.drop (xs.length - n)).take n).map some := by
    rw [List.map_take, List.map_drop]
  have hall : (((xs.map some).drop (xs.length - n)).take n).all Option.isSome = true := by
    rw [List.all_eq_true]
    intro o ho
    have : o ∈ xs.map some := List.mem_of_mem_drop (List.mem_of_mem_take ho)
    rcases List.mem_map.mp this with ⟨x, _, rfl⟩
    rfl
  rw [if_pos ⟨by omega, hall⟩]
  have htake : (xs.drop (xs.length - n)).take n = xs.drop (xs.length - n) :=
    List.take_of_length_le (by rw [List.length_drop]; omega)
  rw [hw, htake, List.map_map]
  have hmap : (xs.drop (xs.length - n)).map ((fun o => o.getD 0) ∘ some)
      = xs.drop (xs.length - n) := by
    rw [List.map_congr_left (fun x _ => rfl)]
    exact List.map_id _
  rw [hmap]

/-! ## C3: pivot window boundaries -/

/-- C3: with at least 22 bars, resistance is the max high (and support the
min low) over the 20 bars immediately preceding the latest bar, the
latest bar excluded; with fewer than 22 bars both fall back to the
whole-series extreme including the latest bar; and for more than 22 bars
whose latest high strictly dominates all earlier highs, resistance never
equals that latest high. -/
theorem C3_pivot_window (bars : List Bar) :
    (22 ≤ bars.length →
      pivot_high bars 20 =
        listMax (((bars.dropLast.drop (bars.dropLast.length - 20))).map Bar.high)
      ∧ pivot_low bars 20 =
        listMin (((bars.dropLast.drop (bars.dropLast.length - 20))).map Bar.low))
    ∧ (bars.length < 22 →
      pivot_high bars 20 = listMax (bars.map Bar.high)
      ∧ pivot_low bars 20 = listMin (bars.map Bar.low))
    ∧ (23 ≤ bars.length →
      (∀ b ∈ bars.dropLast, b.high < (lastBar bars).high) →
      pivot_high bars 20 ≠ (lastBar bars).high) := by
  have hwin : ∀ h22 : 22 ≤ bars.length,
      (bars.drop (bars.length - 21)).take 20
        = bars.dropLast.drop (bars.dropLast.length - 20) := by
    intro h22
    rw [List.dropLast_eq_take, List.length_take]
    have h1 : (bars.length - 1) ⊓ bars.length = bars.length - 1 :=
      inf_eq_left.mpr (by omega)
    rw [h1]
    rw [List.drop_take]
    have h2 : bars.length - 1 - (bars.length - 1 - 20) = 20 := by omega
    have h3 : bars.length - 1 - 20 = bars.length - 21 := by omega
    rw [h2, h3]
  refine ⟨?_, ?_, ?_⟩
  · intro h22
    constructor
    · rw [pivot_high, if_neg (by omega), hwin h22]
    · rw [pivot_low, if_neg (by omega), hwin h22]
  · intro h22
    constructor
    · rw [pivot_high, if_pos (by omega)]
    · rw [pivot_low, if_pos (by omega)]
  · intro h23 hdom
    rw [pivot_high, if_neg (by omega), hwin (by omega)]
    set w := bars.dropLast.drop (bars.dropLast.length - 20) with hwdef
    have hwne : w.map Bar.high ≠ [] := by
      have : (w.map Bar.high).length = 20 := by
        rw [List.length_map, hwdef, List.length_drop, List.length_dropLast]
        omega
      intro hnil
      rw [hnil] at this
      simp at this
    have hmax := listMax_mem (w.map Bar.high) hwne
    rcases List.mem_map.mp hmax with ⟨b, hbw, hbh⟩
    have hbdl : b ∈ bars.dropLast := List.mem_of_mem_drop hbw
    have := hdom b hbdl
    rw [hbh] at this
    exact ne_of_lt this

/-- C3 witness: a 23-bar series whose latest high (9) towers over the
constant highs (1) of the earlier bars: both window identities evaluate,
and resistance is not 9. -/
theorem C3_pivot_window_witness :
    pivot_high (List.replicate 22 (Bar.mk 0 1 1 1 1 1) ++ [Bar.mk 0 1 9 1 1 1]) 20 =
      listMax ((((List.replicate 22 (Bar.mk 0 1 1 1 1 1) ++
        [Bar.mk 0 1 9 1 1 1]).dropLast.drop
          ((List.replicate 22 (Bar.mk 0 1 1 1 1 1) ++
            [Bar.mk 0 1 9 1 1 1]).dropLast.length - 20))).map Bar.high)
    ∧ pivot_high [Bar.mk 0 1 5 1 1 1] 20 = listMax ([Bar.mk 0 1 5 1 1 1].map Bar.high)
    ∧ pivot_high (List.replicate 22 (Bar.mk 0 1 1 1 1 1) ++ [Bar.mk 0 1 9 1 1 1]) 20 ≠
        (lastBar (List.replicate 22 (Bar.mk 0 1 1 1 1 1) ++ [Bar.mk 0 1 9 1 1 1])).high :=
  ⟨((C3_pivot_window _).1 (by decide)).1,
   ((C3_pivot_window _).2.1 (by decide)).1,
   (C3_pivot_window _).2.2 (by decide) (by decide)⟩

/-! ## C10: no breakout on short histories -/

/-- C10: on a series shorter than 22 bars in which every bar has
high at least close, the whole-series fallback resistance includes the
latest bar, so close can never exceed it and the setup is never
BREAKOUT. -/
theorem C10_no_breakout_short (bars : List Bar) (hne : bars ≠ [])
    (hshort : bars.length < 22) (hinv : ∀ b ∈ bars, b.close ≤ b.high) :
    (compute_signal bars).setup ≠ "BREAKOUT" := by
  have hres : sigResistance bars = listMax (bars.map Bar.high) := by
    rw [sigResistance, pivot_high, if_pos (by omega)]
  have hlastmem : lastBar bars ∈ bars := by
    rw [lastBar, List.getLastD_eq_getLast?, List.getLast?_eq_getLast _ hne]
    exact List.getLast_mem hne
  have hclose : sigClose bars ≤ sigResistance bars := by
    rw [hres, sigClose]
    exact le_trans (hinv _ hlastmem)
      (listMax_mem_le _ _ (List.mem_map_of_mem Bar.high hlastmem))
  have hbf : sigBreakout bars = false := by
    rw [sigBreakout]
    have : decide (sigClose bars > sigResistance bars) = false := by
      rw [decide_eq_false_iff_not]
      exact not_lt.mpr hclose
    rw [this]
    simp
  show sigSetup bars ≠ "BREAKOUT"
  rw [sigSetup, hbf, if_neg (by simp)]
  by_cases hp : sigPullback bars
  · rw [if_pos hp]
    decide
  · rw [if_neg hp]
    decide

/-- C10 witness: a 3-bar flat series respecting the bar invariant is
classified, and its setup is not BREAKOUT. -/
theorem C10_no_breakout_short_witness :
    (compute_signal (List.replicate 3 (Bar.mk 0 1 1 1 1 1))).setup ≠ "BREAKOUT" :=
  C10_no_breakout_short _ (by decide) (by decide) (by decide)

/-! ## C1: the risk-reward block and Python truthiness -/

/-- The r-multiple formula of the claim: (tp - entry)/(entry - stop-loss)
when the take-profit is set and nonzero (truthy), else null. -/
def rMultiple (tp : Option ℚ) (e s : ℚ) : Option ℚ :=
  match tp with
  | some t => if t ≠ 0 then some ((t - e) / (e - s)) else none
  | none => none

lemma mkRR_isSome_iff (entry sl tp1 tp2 : Option ℚ) :
    (mkRR entry sl tp1 tp2).isSome ↔
      ∃ e s, entry = some e ∧ sl = some s ∧ e ≠ 0 ∧ s ≠ 0 ∧ s < e := by
  rcases entry with _ | e
  · simp [mkRR, truthy]
  · rcases sl with _ | s
    · simp [mkRR, truthy]
    · rw [mkRR]
      by_cases hcond : (truthy (some e) && truthy (some s)
          && decide ((some e).getD 0 > (some s).getD 0)) = true
      · rw [if_pos hcond]
        simp only [truthy, Bool.and_eq_true, decide_eq_true_iff] at hcond
        simp only [Option.isSome_some, true_iff]
        exact ⟨e, s, rfl, rfl, hcond.1.1, hcond.1.2, hcond.2⟩
      · rw [if_neg hcond]
        simp only [truthy, Bool.and_eq_true, decide_eq_true_iff] at hcond
        simp only [Option.isSome_none, Bool.false_eq_true, false_iff]
        rintro ⟨e2, s2, he, hs, he0, hs0, hlt⟩
        rcases Option.some_injective _ he with rfl
        rcases Option.some_injective _ hs with rfl
        exact hcond ⟨⟨he0, hs0⟩, hlt⟩

lemma mkRR_some (entry sl tp1 tp2 : Option ℚ) (blk : RRBlock)
    (h : mkRR entry sl tp1 tp2 = some blk) :
    ∃ e s, entry = some e ∧ sl = some s
      ∧ blk.risk_per_share = e - s
      ∧ blk.r_multiple_tp1 = rMultiple tp1 e s
      ∧ blk.r_multiple_tp2 = rMultiple tp2 e s := by
  have hs : (mkRR entry sl tp1 tp2).isSome := by rw [h]; rfl
  rcases (mkRR_isSome_iff entry sl tp1 tp2).mp hs with ⟨e, s, he, hsl, he0, hs0, hlt⟩
  subst he
  subst hsl
  refine ⟨e, s, rfl, rfl, ?_⟩
  rw [mkRR] at h
  rw [if_pos (by
    simp only [truthy, Bool.and_eq_true, decide_eq_true_iff]
    exact ⟨⟨he0, hs0⟩, hlt⟩)] at h
  rcases Option.some_injective _ h with rfl
  refine ⟨rfl, ?_, ?_⟩
  · rcases tp1 with _ | t
    · rfl
    · show (if truthy (some t) then some ((t - e) / (e - s)) else none) = _
      simp only [truthy, rMultiple]
      by_cases ht : t ≠ 0
      · rw [if_pos (by rw [decide_eq_true_iff]; exact ht), if_pos ht]
      · rw [if_neg (by rw [decide_eq_true_iff]; exact ht), if_neg ht]
  · rcases tp2 with _ | t
    · rfl
    · show (if truthy (some t) then some ((t - e) / (e - s)) else none) = _
      simp only [truthy, rMultiple]
      by_cases ht : t ≠ 0
      · rw [if_pos (by rw [decide_eq_true_iff]; exact ht), if_pos ht]
      · rw [if_neg (by rw [decide_eq_true_iff]; exact ht), if_neg ht]

/-- C1 (amended): for every bar series, the risk-reward block is present
iff entry and stop-loss are set, both nonzero (Python truthiness), and
entry exceeds stop-loss; when present, risk_per_share is entry minus
stop-loss and each r-multiple is (tp - entry)/(entry - stop-loss) when
the corresponding take-profit is set and nonzero, else null. -/
theorem C1_rr_truthiness (bars : List Bar) :
    ((compute_signal bars).rr.isSome ↔
      ∃ e s, (compute_signal bars).entry = some e ∧ (compute_signal bars).sl = some s
        ∧ e ≠ 0 ∧ s ≠ 0 ∧ s < e)
    ∧ (∀ blk : RRBlock, (compute_signal bars).rr = some blk →
        ∃ e s, (compute_signal bars).entry = some e
          ∧ (compute_signal bars).sl = some s
          ∧ blk.risk_per_share = e - s
          ∧ blk.r_multiple_tp1 = rMultiple ((compute_signal bars).tp1) e s
          ∧ blk.r_multiple_tp2 = rMultiple ((compute_signal bars).tp2) e s) :=
  ⟨mkRR_isSome_iff (sigEntry bars) (sigSl bars) (sigTp1 bars) (sigTp2 bars),
   fun blk h => mkRR_some (sigEntry bars) (sigSl bars) (sigTp1 bars) (sigTp2 bars) blk h⟩

/-- A 50-bar uptrending series ending in a volume-backed breakout:
entry 2, stop-loss 1, take-profits 3 and 4. -/
def barsUpC1 : List Bar :=
  List.replicate 49 (Bar.mk 0 1 1 1 1 1) ++ [Bar.mk 0 1 2 1 2 2]

set_option maxRecDepth 100000 in
unseal Rat.add Rat.mul Rat.inv Rat.sub in
/-- C1 witness: on the concrete breakout series the block is present with
risk 1 and r-multiples 1 and 2, and both parts of the theorem evaluate. -/
theorem C1_rr_truthiness_witness :
    ((compute_signal barsUpC1).rr.isSome ↔
      ∃ e s, (compute_signal barsUpC1).entry = some e
        ∧ (compute_signal barsUpC1).sl = some s ∧ e ≠ 0 ∧ s ≠ 0 ∧ s < e)
    ∧ (∃ e s, (compute_signal barsUpC1).entry = some e
        ∧ (compute_signal barsUpC1).sl = some s
        ∧ (RRBlock.mk 1 (some 1) (some 2)).risk_per_share = e - s
        ∧ (RRBlock.mk 1 (some 1) (some 2)).r_multiple_tp1 =
            rMultiple ((compute_signal barsUpC1).tp1) e s
        ∧ (RRBlock.mk 1 (some 1) (some 2)).r_multiple_tp2 =
            rMultiple ((compute_signal barsUpC1).tp2) e s) :=
  ⟨(C1_rr_truthiness barsUpC1).1,
   (C1_rr_truthiness barsUpC1).2 (RRBlock.mk 1 (some 1) (some 2)) (by decide)⟩

/-- A 50-bar series of negative prices whose latest close is exactly 0:
it classifies as a pullback with entry 0 and stop-loss -2. -/
def barsZeroC1 : List Bar :=
  List.replicate 49 (Bar.mk 0 (-2) (-2) (-2) (-2) 1) ++ [Bar.mk 0 0 0 0 0 1]

set_option maxRecDepth 100000 in
unseal Rat.add Rat.mul Rat.inv Rat.sub in
/-- C1 counterexample to the claim as stated: entry (0) and stop-loss (-2)
are both set and entry exceeds stop-loss, yet the risk-reward block is
absent, because the code tests Python truthiness and 0.0 is falsy. -/
theorem C1_rr_truthiness_counterexample :
    (compute_signal barsZeroC1).entry = some 0
    ∧ (compute_signal barsZeroC1).sl = some (-2)
    ∧ ((-2 : ℚ) < 0)
    ∧ (compute_signal barsZeroC1).rr = none := by decide

/-! ## C2: the screener score decomposition -/

lemma sum_eq_zero_mem (l : List ℚ) (hpos : ∀ x ∈ l, 0 ≤ x) (hsum : l.sum = 0) :
    ∀ x ∈ l, x = 0 := by
  induction l with
  | nil => intro x hx; cases hx
  | cons a as ih =>
      rw [List.sum_cons] at hsum
      have ha : 0 ≤ a := hpos a (List.mem_cons_self _ _)
      have has : 0 ≤ as.sum := List.sum_nonneg (fun x hx => hpos x (List.mem_cons_of_mem _ hx))
      have ha0 : a = 0 := by linarith
      have hs0 : as.sum = 0 := by linarith
      intro x hx
      rcases List.mem_cons.mp hx with rfl | hx
      · exact ha0
      · exact ih (fun y hy => hpos y (List.mem_cons_of_mem _ hy)) hs0 x hx

lemma getLast?_drop_of_lt {α : Type} (l : List α) (k : ℕ) (h : k < l.length) :
    (l.drop k).getLast? = l.getLast? := by
  rw [List.getLast?_eq_getElem?, List.getLast?_eq_getElem?, List.getElem?_drop]
  congr 1
  rw [List.length_drop]
  omega

lemma bars_getLast?_eq (bars : List Bar) (hne : bars ≠ []) :
    bars.getLast? = some (lastBar bars) := by
  rw [lastBar, List.getLastD_eq_getLast?, List.getLast?_eq_getLast _ hne]
  rfl

lemma lastBar_mem (bars : List Bar) (hne : bars ≠ []) : lastBar bars ∈ bars := by
  rw [lastBar, List.getLastD_eq_getLast?, List.getLast?_eq_getLast _ hne]
  exact List.getLast_mem hne

lemma sigVolma20_short (bars : List Bar) (h : bars.length < 20) :
    sigVolma20 bars = sigVol bars := by
  rw [sigVolma20, sma_last_undefined _ _ (by rw [List.length_map]; omega)]
  rfl

lemma sigVolma20_long (bars : List Bar) (h : 20 ≤ bars.length) :
    sigVolma20 bars =
      ((bars.map Bar.volume).drop (bars.length - 20)).sum / (20 : ℚ) := by
  rw [sigVolma20, sma_last_defined _ 20 (by omega) (by rw [List.length_map]; omega)]
  rw [Option.getD_some, List.length_map]
  norm_num

/-- On series with nonnegative volumes, the latest volume exceeding
volma20 forces both to be nonzero, so the truthiness guards of the
screener's volume bonus are redundant. -/
lemma vol_gt_volma20_nonzero (bars : List Bar) (hne : bars ≠ [])
    (hvol : ∀ b ∈ bars, 0 ≤ b.volume) (hgt : sigVol bars > sigVolma20 bars) :
    sigVol bars ≠ 0 ∧ sigVolma20 bars ≠ 0 := by
  have hvnn : 0 ≤ sigVol bars := hvol _ (lastBar_mem bars hne)
  by_cases hlen : bars.length < 20
  · rw [sigVolma20_short bars hlen] at hgt
    exact absurd hgt (lt_irrefl _)
  · push_neg at hlen
    have hval := sigVolma20_long bars hlen
    have hmem : ∀ x ∈ (bars.map Bar.volume).drop (bars.length - 20), 0 ≤ x := by
      intro x hx
      have hx2 : x ∈ bars.map Bar.volume := List.mem_of_mem_drop hx
      rcases List.mem_map.mp hx2 with ⟨b, hb, rfl⟩
      exact hvol b hb
    have hnn : 0 ≤ sigVolma20 bars := by
      rw [hval]
      exact div_nonneg (List.sum_nonneg hmem) (by norm_num)
    have hvposr : 0 < sigVol bars := lt_of_le_of_lt hnn hgt
    refine ⟨ne_of_gt hvposr, ?_⟩
    intro hzero
    rw [hzero] at hgt
    rw [hval] at hzero
    have hsum : ((bars.map Bar.volume).drop (bars.length - 20)).sum = 0 := by
      field_simp at hzero
      exact hzero
    have hall := sum_eq_zero_mem _ hmem hsum
    have hlastin : sigVol bars ∈ (bars.map Bar.volume).drop (bars.length - 20) := by
      have hLpos : 1 ≤ bars.length := by omega
      have hgl : ((bars.map Bar.volume).drop (bars.length - 20)).getLast?
          = some (sigVol bars) := by
        rw [getLast?_drop_of_lt _ _ (by rw [List.length_map]; omega)]
        rw [List.getLast?_map, bars_getLast?_eq bars hne]
        rfl
      exact List.mem_of_mem_getLast? hgl
    have := hall _ hlastin
    exact absurd this (ne_of_gt hvposr)

/-- C2: for every successfully classified nonempty bar series with
nonnegative volumes, the screener score is exactly 2 for trend_ok plus 3
for BREAKOUT plus 2 for PULLBACK_MA20 plus 1 whenever the latest volume
exceeds volma20 (with no residual truthiness condition). -/
theorem C2_screener_score (bars : List Bar) (hne : bars ≠ [])
    (hvol : ∀ b ∈ bars, 0 ≤ b.volume) :
    screener_score (compute_signal bars) =
      (if (compute_signal bars).trend_ok then 2 else 0)
      + (if (compute_signal bars).setup = "BREAKOUT" then 3 else 0)
      + (if (compute_signal bars).setup = "PULLBACK_MA20" then 2 else 0)
      + (if (compute_signal bars).volume > (compute_signal bars).volma20
          then 1 else 0) := by
  rw [screener_score]
  congr 1
  by_cases hgt : (compute_signal bars).volume > (compute_signal bars).volma20
  · rw [if_pos hgt]
    rcases vol_gt_volma20_nonzero bars hne hvol hgt with ⟨h1, h2⟩
    rw [if_pos ⟨h1, h2, hgt⟩]
  · rw [if_neg hgt]
    rw [if_neg (fun hc => hgt hc.2.2)]

/-- C2 witness: one flat bar with volume 5: no setup, no volume edge, the
score decomposition evaluates to 0 = 0. -/
theorem C2_screener_score_witness :
    screener_score (compute_signal [Bar.mk 0 1 1 1 1 5]) =
      (if (compute_signal [Bar.mk 0 1 1 1 1 5]).trend_ok then 2 else 0)
      + (if (compute_signal [Bar.mk 0 1 1 1 1 5]).setup = "BREAKOUT" then 3 else 0)
      + (if (compute_signal [Bar.mk 0 1 1 1 1 5]).setup = "PULLBACK_MA20"
          then 2 else 0)
      + (if (compute_signal [Bar.mk 0 1 1 1 1 5]).volume >
            (compute_signal [Bar.mk 0 1 1 1 1 5]).volma20 then 1 else 0) :=
  C2_screener_score [Bar.mk 0 1 1 1 1 5] (by decide) (by decide)

/-! ## C4 and C5: regime status logic and degradation -/

/-- C4: on a successfully classified benchmark series, the status is
NO_TRADE_DAY exactly when the trend is off (close below ma50) and
volatility or the daily drop crosses the 2 percent thresholds; otherwise
RISK_ON when close and ma20 both clear ma50, RISK_OFF when close is
below ma50, and NEUTRAL in the remaining cases. -/
theorem C4_regime_status (bars : List Bar) (hne : bars ≠ []) :
    (market_regime (Except.ok bars)).status =
      if regClose bars < regMa50 bars
          ∧ (regAtrPct bars ≥ 2 / 100 ∨ regDayChange bars ≤ -(2 / 100)) then
        "NO_TRADE_DAY"
      else if regClose bars > regMa50 bars ∧ regMa20 bars > regMa50 bars then
        "RISK_ON"
      else if regClose bars < regMa50 bars then "RISK_OFF"
      else "NEUTRAL" := by
  have hnotempty : bars.isEmpty = false := by
    cases bars with
    | nil => exact absurd rfl hne
    | cons a as => rfl
  show (market_regime (Except.ok bars)).status = _
  rw [market_regime]
  rw [if_neg (by rw [hnotempty]; exact Bool.false_ne_true)]
  show regStatus bars = _
  rw [regStatus, regNoTrade, regStatusPre, regTrendOn, regTrendOff]
  by_cases hoff : regClose bars < regMa50 bars
  <;> by_cases hextra : regAtrPct bars ≥ 2 / 100 ∨ regDayChange bars ≤ -(2 / 100)
  <;> by_cases hon : regClose bars > regMa50 bars ∧ regMa20 bars > regMa50 bars
  all_goals simp [hoff, hextra, hon]

/-- C4 witness: a concrete two-bar flat benchmark series is classified
and its status satisfies the override-else cascade. -/
theorem C4_regime_status_witness :
    (market_regime (Except.ok [Bar.mk 0 1 1 1 1 1, Bar.mk 1 1 1 1 1 1])).status =
      if regClose [Bar.mk 0 1 1 1 1 1, Bar.mk 1 1 1 1 1 1] <
            regMa50 [Bar.mk 0 1 1 1 1 1, Bar.mk 1 1 1 1 1 1]
          ∧ (regAtrPct [Bar.mk 0 1 1 1 1 1, Bar.mk 1 1 1 1 1 1] ≥ 2 / 100
            ∨ regDayChange [Bar.mk 0 1 1 1 1 1, Bar.mk 1 1 1 1 1 1] ≤ -(2 / 100)) then
        "NO_TRADE_DAY"
      else if regClose [Bar.mk 0 1 1 1 1 1, Bar.mk 1 1 1 1 1 1] >
            regMa50 [Bar.mk 0 1 1 1 1 1, Bar.mk 1 1 1 1 1 1]
          ∧ regMa20 [Bar.mk 0 1 1 1 1 1, Bar.mk 1 1 1 1 1 1] >
            regMa50 [Bar.mk 0 1 1 1 1 1, Bar.mk 1 1 1 1 1 1] then
        "RISK_ON"
      else if regClose [Bar.mk 0 1 1 1 1 1, Bar.mk 1 1 1 1 1 1] <
            regMa50 [Bar.mk 0 1 1 1 1 1, Bar.mk 1 1 1 1 1 1] then "RISK_OFF"
      else "NEUTRAL" :=
  C4_regime_status [Bar.mk 0 1 1 1 1 1, Bar.mk 1 1 1 1 1 1] (by decide)

/-- C5 helper: the failure cause that the regime classifier observes: a
fetch failure message, or the indexing failure on an empty series. -/
def fetchFailure (fetched : Except String (List Bar)) : Option String :=
  match fetched with
  | .error e => some e
  | .ok bars =>
      if bars.isEmpty then some "single positional indexer is out-of-bounds"
      else none

/-- C5: whenever fetching or computing over the benchmark fails, the
regime classifier returns (instead of raising) the degraded record:
status UNKNOWN, every numeric field including asof null, and a note
carrying the failure cause. -/
theorem C5_regime_degrades (fetched : Except String (List Bar)) (cause : String)
    (h : fetchFailure fetched = some cause) :
    market_regime fetched = unknownRegime cause
    ∧ (market_regime fetched).status = "UNKNOWN"
    ∧ (market_regime fetched).close = none
    ∧ (market_regime fetched).ma20 = none
    ∧ (market_regime fetched).ma50 = none
    ∧ (market_regime fetched).day_change_pct = none
    ∧ (market_regime fetched).atr14_pct = none
    ∧ (market_regime fetched).asof = none
    ∧ (market_regime fetched).note = ["Data IHSG belum tersedia: " ++ cause] := by
  have heq : market_regime fetched = unknownRegime cause := by
    rcases fetched with e | bars
    · rw [fetchFailure] at h
      rcases Option.some_injective _ h with rfl
      rfl
    · rw [fetchFailure] at h
      by_cases hemp : bars.isEmpty
      · rw [if_pos hemp] at h
        rcases Option.some_injective _ h with rfl
        rw [market_regime]
        rw [if_pos hemp]
      · rw [if_neg hemp] at h
        exact absurd h (by simp)
  rw [heq]
  exact ⟨rfl, rfl, rfl, rfl, rfl, rfl, rfl, rfl, rfl⟩

/-- C5 witness: a failing fetch with cause boom produces exactly the
degraded record. -/
theorem C5_regime_degrades_witness :
    market_regime (Except.error "boom") = unknownRegime "boom"
    ∧ (market_regime (Except.error "boom")).status = "UNKNOWN"
    ∧ (market_regime (Except.error "boom")).close = none
    ∧ (market_regime (Except.error "boom")).ma20 = none
    ∧ (market_regime (Except.error "boom")).ma50 = none
    ∧ (market_regime (Except.error "boom")).day_change_pct = none
    ∧ (market_regime (Except.error "boom")).atr14_pct = none
    ∧ (market_regime (Except.error "boom")).asof = none
    ∧ (market_regime (Except.error "boom")).note =
        ["Data IHSG belum tersedia: " ++ "boom"] :=
  C5_regime_degrades (Except.error "boom") "boom" rfl

/-! ## C9: the screener ordering -/

lemma orderedInsert_filter_score (x : Row) (l : List Row) (s : ℕ) :
    (List.orderedInsert rowGe x l).filter (fun r => decide (r.score = s))
      = (if x.score = s then [x] else [])
        ++ l.filter (fun r => decide (r.score = s)) := by
  induction l with
  | nil =>
      rw [List.orderedInsert_nil, List.filter_cons]
      by_cases hx : x.score = s <;> simp [hx]
  | cons y ys ih =>
      rw [List.orderedInsert]
      by_cases hxy : rowGe x y
      · rw [if_pos hxy, List.filter_cons, List.filter_cons]
        by_cases hx : x.score = s <;> by_cases hy : y.score = s <;> simp [hx, hy]
      · rw [if_neg hxy, List.filter_cons, ih, List.filter_cons]
        have hlt : x.score < y.score := by
          rw [rowGe] at hxy
          omega
        by_cases hx : x.score = s <;> by_cases hy : y.score = s
        · exact absurd (hx.trans hy.symm) (by omega)
        · simp [hx, hy]
        · simp [hx, hy]
        · simp [hx, hy]

lemma sortResults_filter (rows : List Row) (s : ℕ) :
    (sortResults rows).filter (fun r => decide (r.score = s))
      = rows.filter (fun r => decide (r.score = s)) := by
  induction rows with
  | nil => rfl
  | cons r rs ih =>
      show (List.orderedInsert rowGe r (List.insertionSort rowGe rs)).filter _ = _
      rw [orderedInsert_filter_score]
      rw [show List.insertionSort rowGe rs = sortResults rs from rfl, ih]
      rw [List.filter_cons]
      by_cases hr : r.score = s <;> simp [hr]

/-- C9: the screener's returned list is the 25-element prefix of the
sorted results, the sorted list is descending in score, it is a
permutation of the input rows, the sort is stable (for each score the
subsequence of rows carrying it is unchanged, so equal-score rows keep
their original universe order), and at most 25 rows are returned. -/
theorem C9_screener_sort (rows : List Row) :
    screener_top rows = (sortResults rows).take 25
    ∧ List.Pairwise (fun a b => b.score ≤ a.score) (sortResults rows)
    ∧ (sortResults rows).Perm rows
    ∧ (∀ s : ℕ, (sortResults rows).filter (fun r => decide (r.score = s))
        = rows.filter (fun r => decide (r.score = s)))
    ∧ (screener_top rows).length ≤ 25 := by
  refine ⟨rfl, ?_, List.perm_insertionSort rowGe rows,
    fun s => sortResults_filter rows s, ?_⟩
  · exact (List.sorted_insertionSort rowGe rows).imp (fun h => h)
  · rw [screener_top]
    exact List.length_take_le _ _

/-! ## C6: definedness and range of the relative-strength value -/

lemma diff_getElem (xs : List ℚ) (k : ℕ) (hk : k < (diff xs).length) :
    (diff xs)[k] = if k = 0 then none else some (xs.getD k 0 - xs.getD (k - 1) 0) := by
  unfold diff
  unfold diff at hk
  rw [List.length_map, List.length_range] at hk
  simp [List.getElem_map, List.getElem_range, hk]

lemma windowAllSome (xs : List ℚ) (g : ℚ → ℚ) (i : ℕ) (_hi : i < xs.length)
    (h14 : 14 ≤ i) :
    ((((diff xs).map (Option.map g)).drop (i + 1 - 14)).take 14).all
      Option.isSome = true := by
  rw [List.all_eq_true]
  intro x hx
  rcases List.mem_iff_getElem.mp hx with ⟨j, hj, rfl⟩
  rw [List.getElem_take, List.getElem_drop, List.getElem_map, diff_getElem]
  rw [if_neg (by omega : ¬ (i + 1 - 14 + j = 0))]
  rfl

lemma rollingDiffMap_getD (xs : List ℚ) (g : ℚ → ℚ) (i : ℕ) (hi : i < xs.length) :
    (rollingMeanO 14 ((diff xs).map (Option.map g))).getD i none
      = (if 14 ≤ i then
          some ((((((diff xs).map (Option.map g)).drop (i + 1 - 14)).take 14).map
            (fun o => o.getD 0)).sum / (14 : ℚ))
        else none) := by
  have hlen : ((diff xs).map (Option.map g)).length = xs.length := by
    rw [List.length_map, diff_length]
  rw [rollingMeanO_getD 14 _ i (by rw [hlen]; exact hi)]
  by_cases h14 : 14 ≤ i
  · rw [if_pos ⟨by omega, windowAllSome xs g i hi h14⟩, if_pos h14]
    norm_num
  · rw [if_neg h14]
    rw [if_neg ?hcond]
    case hcond =>
      rintro ⟨hc1, hc2⟩
      have hdrop0 : i + 1 - 14 = 0 := by omega
      rw [hdrop0] at hc2
      have hi13 : i = 13 := by omega
      have hwlen : ((((diff xs).map (Option.map g)).drop 0).take 14).length = 14 := by
        rw [List.length_take, List.length_drop, hlen]
        have : 14 ≤ xs.length := by omega
        omega
      have hwpos : 0 < ((((diff xs).map (Option.map g)).drop 0).take 14).length := by
        rw [hwlen]
        omega
      have hw0 : ((((diff xs).map (Option.map g)).drop 0).take 14).get ⟨0, hwpos⟩
          = none := by
        rw [List.get_eq_getElem, List.getElem_take, List.getElem_drop,
          List.getElem_map, diff_getElem]
        rw [if_pos (by omega : 0 + 0 = 0)]
        rfl
      have hmem : (none : Option ℚ) ∈ (((diff xs).map (Option.map g)).drop 0).take 14 := by
        rw [← hw0]
        exact List.get_mem _ 0 hwpos
      have := List.all_eq_true.mp hc2 none hmem
      simp at this

lemma rollingDiffMap_nonneg (xs : List ℚ) (g : ℚ → ℚ) (hg : ∀ d, 0 ≤ g d) (i : ℕ)
    (hi : i < xs.length) (u : ℚ)
    (hu : (rollingMeanO 14 ((diff xs).map (Option.map g))).getD i none = some u) :
    0 ≤ u := by
  rw [rollingDiffMap_getD xs g i hi] at hu
  by_cases h14 : 14 ≤ i
  · rw [if_pos h14] at hu
    rcases Option.some_injective _ hu with rfl
    apply div_nonneg _ (by norm_num)
    apply List.sum_nonneg
    intro x hx
    rcases List.mem_map.mp hx with ⟨o, ho, rfl⟩
    have ho2 : o ∈ (diff xs).map (Option.map g) :=
      List.mem_of_mem_drop (List.mem_of_mem_take ho)
    rcases List.mem_map.mp ho2 with ⟨d, _, rfl⟩
    rcases d with _ | d0
    · exact le_refl _
    · exact hg d0
  · rw [if_neg h14] at hu
    exact absurd hu (by simp)

/-- C6: the 14-period relative-strength value at position i of the close
series is defined exactly when the delta window is complete (i at least
14, so 14 full deltas exist) and the trailing mean of negative-delta
magnitudes is nonzero; wherever defined it equals 100 - 100/(1+up/down)
and lies in the interval [0, 100]. -/
theorem C6_rsi_bounds (xs : List ℚ) (i : ℕ) (hi : i < xs.length) :
    (((rsi xs 14).getD i none).isSome = true ↔
      14 ≤ i ∧ ∃ dn, (rsiDowns 14 xs).getD i none = some dn ∧ dn ≠ 0)
    ∧ (∀ v, (rsi xs 14).getD i none = some v →
        ∃ u dn, (rsiUps 14 xs).getD i none = some u
          ∧ (rsiDowns 14 xs).getD i none = some dn ∧ dn ≠ 0
          ∧ v = 100 - 100 / (1 + u / dn) ∧ 0 ≤ v ∧ v ≤ 100) := by
  have hups := rollingDiffMap_getD xs (fun d => max 0 d) i hi
  have hdowns := rollingDiffMap_getD xs (fun d => max 0 (-d)) i hi
  rw [rsi_getD xs 14 i hi]
  by_cases h14 : 14 ≤ i
  · rw [if_pos h14] at hups hdowns
    have hu : (rsiUps 14 xs).getD i none
        = some ((((((diff xs).map (Option.map fun d => max 0 d)).drop
            (i + 1 - 14)).take 14).map (fun o => o.getD 0)).sum / (14 : ℚ)) := by
      rw [rsiUps]; exact hups
    have hdn : (rsiDowns 14 xs).getD i none
        = some ((((((diff xs).map (Option.map fun d => max 0 (-d))).drop
            (i + 1 - 14)).take 14).map (fun o => o.getD 0)).sum / (14 : ℚ)) := by
      rw [rsiDowns]; exact hdowns
    set u := (((((diff xs).map (Option.map fun d => max 0 d)).drop
        (i + 1 - 14)).take 14).map (fun o => o.getD 0)).sum / (14 : ℚ) with hu_def
    set dn := (((((diff xs).map (Option.map fun d => max 0 (-d))).drop
        (i + 1 - 14)).take 14).map (fun o => o.getD 0)).sum / (14 : ℚ) with hdn_def
    rw [hu, hdn]
    change ((if dn = 0 then (none : Option ℚ)
          else some (100 - 100 / (1 + u / dn))).isSome = true ↔
        14 ≤ i ∧ ∃ dn2, some dn = some dn2 ∧ dn2 ≠ 0)
      ∧ ∀ v, (if dn = 0 then (none : Option ℚ)
          else some (100 - 100 / (1 + u / dn))) = some v →
        ∃ u2 dn2, some u = some u2 ∧ some dn = some dn2 ∧ dn2 ≠ 0
          ∧ v = 100 - 100 / (1 + u2 / dn2) ∧ 0 ≤ v ∧ v ≤ 100
    have hun : 0 ≤ u :=
      rollingDiffMap_nonneg xs _ (fun d => le_max_left 0 d) i hi u (by rw [hups])
    have hdnn : 0 ≤ dn :=
      rollingDiffMap_nonneg xs _ (fun d => le_max_left 0 (-d)) i hi dn (by rw [hdowns])
    by_cases hdn0 : dn = 0
    · rw [if_pos hdn0]
      constructor
      · constructor
        · intro habs
          exact absurd habs (by simp)
        · rintro ⟨_, dn2, hdn2, hne2⟩
          rcases Option.some_injective _ hdn2 with rfl
          exact absurd hdn0 hne2
      · intro v hv
        exact absurd hv (by simp)
    · rw [if_neg hdn0]
      have hdnpos : 0 < dn := lt_of_le_of_ne hdnn (Ne.symm hdn0)
      constructor
      · exact ⟨fun _ => ⟨h14, dn, rfl, hdn0⟩, fun _ => rfl⟩
      · intro v hv
        rcases Option.some_injective _ hv with rfl
        refine ⟨u, dn, rfl, rfl, hdn0, rfl, ?_, ?_⟩
        · have hr : 0 ≤ u / dn := div_nonneg hun hdnn
          have hpos : (0 : ℚ) < 1 + u / dn := by linarith
          have hle : 100 / (1 + u / dn) ≤ 100 := by
            rw [div_le_iff₀ hpos]
            nlinarith
          linarith
        · have hr : 0 ≤ u / dn := div_nonneg hun hdnn
          have hpos : (0 : ℚ) < 1 + u / dn := by linarith
          have hfrac : 0 < 100 / (1 + u / dn) := by positivity
          linarith
  · rw [if_neg h14] at hups hdowns
    have hu : (rsiUps 14 xs).getD i none = none := by rw [rsiUps]; exact hups
    have hdn : (rsiDowns 14 xs).getD i none = none := by rw [rsiDowns]; exact hdowns
    rw [hu, hdn]
    change ((none : Option ℚ).isSome = true ↔
        14 ≤ i ∧ ∃ dn2, (none : Option ℚ) = some dn2 ∧ dn2 ≠ 0)
      ∧ ∀ v, (none : Option ℚ) = some v →
        ∃ u2 dn2, (none : Option ℚ) = some u2 ∧ (none : Option ℚ) = some dn2
          ∧ dn2 ≠ 0 ∧ v = 100 - 100 / (1 + u2 / dn2) ∧ 0 ≤ v ∧ v ≤ 100
    constructor
    · constructor
      · intro habs
        exact absurd habs (by simp)
      · rintro ⟨h14c, _⟩
        exact absurd h14c h14
    · intro v hv
      exact absurd hv (by simp)

/-- An alternating close series: its deltas are 14 values of plus and
minus one, so up = down = 1/2 at position 14 and the value is 50. -/
def closesC6 : List ℚ := [0, 1, 0, 1, 0, 1, 0, 1, 0, 1, 0, 1, 0, 1, 0]

set_option maxRecDepth 100000 in
unseal Rat.add Rat.mul Rat.inv Rat.sub in
/-- C6 witness: on the alternating series the value at position 14 is
defined, equal to 50 via the formula, and inside [0, 100]. -/
theorem C6_rsi_bounds_witness :
    (((rsi closesC6 14).getD 14 none).isSome = true ↔
      14 ≤ 14 ∧ ∃ dn, (rsiDowns 14 closesC6).getD 14 none = some dn ∧ dn ≠ 0)
    ∧ (∃ u dn, (rsiUps 14 closesC6).getD 14 none = some u
        ∧ (rsiDowns 14 closesC6).getD 14 none = some dn ∧ dn ≠ 0
        ∧ (50 : ℚ) = 100 - 100 / (1 + u / dn)
        ∧ (0 : ℚ) ≤ 50 ∧ (50 : ℚ) ≤ 100) :=
  ⟨(C6_rsi_bounds closesC6 14 (by decide)).1,
   (C6_rsi_bounds closesC6 14 (by decide)).2 50 (by decide)⟩

end IdxSignal
